import Mathlib

/-!
Verification of the street-cred encrypted-credentials manager.

The development shallowly embeds the core of the Rust sources:

* src/encryption/message_encryptor.rs  (MessageEncryption: AES-128-GCM
  encrypt / decrypt over the three-field wire format)
* src/encryption/cipher_generation.rs  (CipherGeneration: random nonces
  and keys, modelled over an explicit random stream)
* src/encryption/file_encryptor.rs     (FileEncryption: init and the
  edit-in-place workflow, modelled over an explicit file-system state)
* src/serialization/ruby_marshal.rs    (RubyMarshal: the legacy string
  envelope; the external thurgood codec is modelled from the framing
  fixed by the doctests in that file)

Conventions: Rust byte vectors and strings are lists of Nat byte values
(strings are their UTF-8 bytes); u8 arithmetic is Nat with explicit
reduction mod 256; Rust results distinguish a returned error from a
process abort (panic), which the embedding tracks with RustOutcome.
Randomness (OsRng) is an explicit stream of type Nat, so every operation
is a pure function of its inputs.
-/

set_option maxRecDepth 8000

/-- ASCII convenience view of a Lean string literal as a list of byte values. -/
def ascii (s : String) : List Nat := s.data.map (fun c => c.toNat)

/-- All byte values of the list are in u8 range. -/
def AllBytes (l : List Nat) : Prop := ∀ b ∈ l, b < 256

instance (l : List Nat) : Decidable (AllBytes l) := by
  unfold AllBytes; infer_instance

/-- Exclusive or of two u8 values (Nat with explicit reduction mod 256). -/
def xor8 (a b : Nat) : Nat := (a ^^^ b) % 256

/-- Outcome of a fallible Rust call: a value, a returned error, or a panic
(process abort). The source never inspects error messages, so they are not
modelled. -/
inductive RustOutcome (α : Type) where
  | ok (val : α)
  | err
  | panicked
deriving DecidableEq

/-! ## Hex encoding (the hex crate: decode used by hex_to_bytes, encode by random_key) -/

/-- Value of one ASCII hex digit, as accepted by hex decoding (0-9, a-f, A-F). -/
def hexDigitVal (c : Nat) : Option Nat :=
  if 48 ≤ c ∧ c ≤ 57 then some (c - 48)
  else if 97 ≤ c ∧ c ≤ 102 then some (c - 97 + 10)
  else if 65 ≤ c ∧ c ≤ 70 then some (c - 65 + 10)
  else none

/-- Translation of the free function hex_to_bytes in message_encryptor.rs,
which delegates to hex decoding: pairs of hex digits become bytes; an odd
length or a non-hex character is an error. -/
def hex_to_bytes : List Nat → Option (List Nat)
  | [] => some []
  | [_] => none
  | c1 :: c2 :: rest =>
    match hexDigitVal c1, hexDigitVal c2, hex_to_bytes rest with
    | some h, some l, some bs => some ((16 * h + l) :: bs)
    | _, _, _ => none

/-- Lower-case ASCII hex digit of a value below 16. -/
def hexDigitChar (n : Nat) : Nat := if n < 10 then 48 + n else 87 + n

/-- Lower-case hex encoding of a byte list (hex encode, as used by random_key). -/
def hexEncode : List Nat → List Nat
  | [] => []
  | b :: bs => hexDigitChar (b / 16) :: hexDigitChar (b % 16) :: hexEncode bs

/-! ## Base64 (the base64 crate, STANDARD engine: padded, canonical) -/

/-- Character of the standard base64 alphabet for a sextet value. -/
def b64Char (n : Nat) : Nat :=
  if n < 26 then 65 + n
  else if n < 52 then 97 + (n - 26)
  else if n < 62 then 48 + (n - 52)
  else if n = 62 then 43
  else 47

/-- Sextet value of a standard-alphabet base64 character. -/
def b64Index (c : Nat) : Option Nat :=
  if 65 ≤ c ∧ c ≤ 90 then some (c - 65)
  else if 97 ≤ c ∧ c ≤ 122 then some (c - 97 + 26)
  else if 48 ≤ c ∧ c ≤ 57 then some (c - 48 + 52)
  else if c = 43 then some 62
  else if c = 47 then some 63
  else none

/-- Standard padded base64 encoding of a byte list. -/
def base64Encode : List Nat → List Nat
  | [] => []
  | [b1] => [b64Char (b1 / 4), b64Char (b1 % 4 * 16), 61, 61]
  | [b1, b2] => [b64Char (b1 / 4), b64Char (b1 % 4 * 16 + b2 / 16), b64Char (b2 % 16 * 4), 61]
  | b1 :: b2 :: b3 :: rest =>
    b64Char (b1 / 4) :: b64Char (b1 % 4 * 16 + b2 / 16) ::
      b64Char (b2 % 16 * 4 + b3 / 64) :: b64Char (b3 % 64) :: base64Encode rest

/-- Standard strict base64 decoding: length must be a multiple of four,
padding only at the end, trailing bits must be zero (the STANDARD engine
of the base64 crate rejects non-canonical input). -/
def base64Decode : List Nat → Option (List Nat)
  | [] => some []
  | c1 :: c2 :: c3 :: c4 :: rest =>
    match b64Index c1, b64Index c2 with
    | some i1, some i2 =>
      if rest = [] then
        if c3 = 61 ∧ c4 = 61 then
          if i2 % 16 = 0 then some [i1 * 4 + i2 / 16] else none
        else if c4 = 61 then
          match b64Index c3 with
          | some i3 => if i3 % 4 = 0 then some [i1 * 4 + i2 / 16, i2 % 16 * 16 + i3 / 4] else none
          | none => none
        else
          match b64Index c3, b64Index c4 with
          | some i3, some i4 => some [i1 * 4 + i2 / 16, i2 % 16 * 16 + i3 / 4, i3 % 4 * 64 + i4]
          | _, _ => none
      else
        match b64Index c3, b64Index c4, base64Decode rest with
        | some i3, some i4, some bs =>
          some ((i1 * 4 + i2 / 16) :: (i2 % 16 * 16 + i3 / 4) :: (i3 % 4 * 64 + i4) :: bs)
        | _, _, _ => none
    | _, _ => none
  | _ => none

/-! ## Splitting on the literal two-dash delimiter (Rust str split semantics:
leftmost non-overlapping matches, keeping empty fields) -/

/-- Split a byte string on the two-byte delimiter 45 45 (the dashes),
matching the Rust split iterator on the two-dash pattern. -/
def splitDashDash : List Nat → List (List Nat)
  | [] => [[]]
  | [c] => [[c]]
  | c1 :: c2 :: rest =>
    if c1 = 45 ∧ c2 = 45 then [] :: splitDashDash rest
    else
      match splitDashDash (c2 :: rest) with
      | [] => [[c1]]
      | h :: t => (c1 :: h) :: t

/-! ## UTF-8 validation (the Rust standard library check behind
str::from_utf8, String::from_utf8 and read_to_string) -/

/-- State of the UTF-8 acceptance automaton: either at a boundary, or
expecting k further continuation bytes after one byte constrained
to the range lo..hi. -/
inductive Utf8State where
  | start
  | need (k lo hi : Nat)
deriving DecidableEq

/-- One step of the UTF-8 acceptance automaton. -/
def utf8Step (st : Option Utf8State) (b : Nat) : Option Utf8State :=
  match st with
  | none => none
  | some .start =>
    if b < 128 then some .start
    else if 194 ≤ b ∧ b ≤ 223 then some (.need 0 128 191)
    else if b = 224 then some (.need 1 160 191)
    else if b = 237 then some (.need 1 128 159)
    else if 225 ≤ b ∧ b ≤ 239 then some (.need 1 128 191)
    else if b = 240 then some (.need 2 144 191)
    else if b = 244 then some (.need 2 128 143)
    else if 241 ≤ b ∧ b ≤ 243 then some (.need 2 128 191)
    else none
  | some (.need k lo hi) =>
    if lo ≤ b ∧ b ≤ hi then
      match k with
      | 0 => some .start
      | k' + 1 => some (.need k' 128 191)
    else none

/-- Whether a byte list is valid UTF-8 (the condition under which the Rust
standard library accepts it as a string). -/
def validUtf8 (l : List Nat) : Bool := l.foldl utf8Step (some .start) = some .start

/-! ## RubyMarshal (src/serialization/ruby_marshal.rs)

Modelled from the spec: PayloadEnvelope wraps a plaintext string in the
legacy length-prefixed string framing and unwrap parses it back, failing on
malformed framing.  The Rust module delegates to the external thurgood
crate, whose exact byte format the repository pins in the doctests of
ruby_marshal.rs: serialize of the Peanut Butter text yields the bytes
4 8 73 34, a length byte, the string bytes, then 6 58 6 69 84. -/

/-- Marshal encoding of a non-negative length (the long format of the
legacy serialization): zero is one byte 0, small values are value plus
five, larger values carry one to four little-endian bytes. -/
def encodeLong (n : Nat) : List Nat :=
  if n = 0 then [0]
  else if n < 123 then [n + 5]
  else if n < 256 then [1, n]
  else if n < 65536 then [2, n % 256, n / 256 % 256]
  else if n < 16777216 then [3, n % 256, n / 256 % 256, n / 65536 % 256]
  else [4, n % 256, n / 256 % 256, n / 65536 % 256, n / 16777216 % 256]

/-- Marshal decoding of a non-negative length, returning the value and the
remaining bytes. Negative length forms are rejected, as a string length is
never negative. -/
def decodeLong : List Nat → Option (Nat × List Nat)
  | [] => none
  | b :: rest =>
    if b = 0 then some (0, rest)
    else if 5 < b ∧ b < 128 then some (b - 5, rest)
    else if b = 1 then
      match rest with
      | x :: r => some (x, r)
      | [] => none
    else if b = 2 then
      match rest with
      | x :: y :: r => some (x + 256 * y, r)
      | _ => none
    else if b = 3 then
      match rest with
      | x :: y :: z :: r => some (x + 256 * y + 65536 * z, r)
      | _ => none
    else if b = 4 then
      match rest with
      | x :: y :: z :: w :: r => some (x + 256 * y + 65536 * z + 16777216 * w, r)
      | _ => none
    else none

namespace RubyMarshal

/-- Translation of RubyMarshal::serialize: frame the UTF-8 bytes of a string
as a marshal string object with encoding ivar, per the byte format fixed by
the ruby_marshal.rs doctests. -/
def serialize (msg : List Nat) : List Nat :=
  [4, 8, 73, 34] ++ encodeLong msg.length ++ msg ++ [6, 58, 6, 69, 84]

/-- Translation of RubyMarshal::deserialize: parse the marshal string frame
back to the raw string bytes; any other shape is a framing error. -/
def deserialize (bytes : List Nat) : Option (List Nat) :=
  match bytes with
  | 4 :: 8 :: 73 :: 34 :: rest =>
    match decodeLong rest with
    | some (n, rest2) =>
      if n ≤ rest2.length then
        if rest2.drop n = [6, 58, 6, 69, 84] then some (rest2.take n) else none
      else none
    | none => none
  | _ => none

end RubyMarshal

/-! Sanity checks against the doctests of ruby_marshal.rs. -/

example :
    RubyMarshal.serialize (ascii "Peanut Butter Jelly Time") =
      [4, 8, 73, 34] ++ [29] ++ ascii "Peanut Butter Jelly Time" ++ [6, 58, 6, 69, 84] := by
  decide

example :
    RubyMarshal.deserialize
        ([4, 8, 73, 34] ++ [29] ++ ascii "Peanut Butter Jelly Time" ++ [6, 58, 6, 69, 84]) =
      some (ascii "Peanut Butter Jelly Time") := by
  decide

example :
    RubyMarshal.deserialize
        ([4, 8, 73, 34] ++ [29] ++ ascii "Peanut Butter Jelly Time" ++ [69, 84]) = none := by
  decide

/-! ## AES-128 (the aes crate behind Aes128Gcm)

Modelled from the spec: the AEAD primitive is the external aes-gcm crate;
the block cipher below is the standard AES-128 forward cipher.  The
substitution box is given as the standard table and checked, entry by
entry, against the defining affine transform of the field inverse in
GF(256); a FIPS-197 known-answer check follows the definitions. -/

/-- Product in GF(256) modulo the AES polynomial, by shift-and-add with
explicit reduction of every intermediate to u8 range. -/
def gf8mul (a b : Nat) : Nat :=
  ((List.range 8).foldl
    (fun (p : Nat × Nat × Nat) _ =>
      let acc := if p.2.2 % 2 = 1 then xor8 p.1 p.2.1 else p.1
      let x := if p.2.1 % 256 < 128 then p.2.1 * 2 % 256 else xor8 (p.2.1 * 2) 27
      (acc, x, p.2.2 / 2))
    (0, a % 256, b % 256)).1

/-- Inverse in GF(256) as the 254th power (zero maps to zero), by
square-and-multiply. -/
def gf8inv (b : Nat) : Nat :=
  let b2 := gf8mul b b
  let b4 := gf8mul b2 b2
  let b8 := gf8mul b4 b4
  let b16 := gf8mul b8 b8
  let b32 := gf8mul b16 b16
  let b64 := gf8mul b32 b32
  let b128 := gf8mul b64 b64
  gf8mul b2 (gf8mul b4 (gf8mul b8 (gf8mul b16 (gf8mul b32 (gf8mul b64 b128)))))

/-- Left rotation of a u8 value by n bits. -/
def rotl8 (t n : Nat) : Nat := (t * 2 ^ n + t / 2 ^ (8 - n)) % 256

/-- Defining form of the AES substitution box: affine transform of the
field inverse. -/
def sboxCalc (b : Nat) : Nat :=
  let t := gf8inv (b % 256)
  xor8 t (xor8 (rotl8 t 1) (xor8 (rotl8 t 2) (xor8 (rotl8 t 3) (xor8 (rotl8 t 4) 99))))

/-- The AES substitution box as the standard 256-entry table. -/
def sboxTable : List Nat :=
  [99, 124, 119, 123, 242, 107, 111, 197, 48, 1, 103, 43, 254, 215, 171, 118,
   202, 130, 201, 125, 250, 89, 71, 240, 173, 212, 162, 175, 156, 164, 114, 192,
   183, 253, 147, 38, 54, 63, 247, 204, 52, 165, 229, 241, 113, 216, 49, 21,
   4, 199, 35, 195, 24, 150, 5, 154, 7, 18, 128, 226, 235, 39, 178, 117,
   9, 131, 44, 26, 27, 110, 90, 160, 82, 59, 214, 179, 41, 227, 47, 132,
   83, 209, 0, 237, 32, 252, 177, 91, 106, 203, 190, 57, 74, 76, 88, 207,
   208, 239, 170, 251, 67, 77, 51, 133, 69, 249, 2, 127, 80, 60, 159, 168,
   81, 163, 64, 143, 146, 157, 56, 245, 188, 182, 218, 33, 16, 255, 243, 210,
   205, 12, 19, 236, 95, 151, 68, 23, 196, 167, 126, 61, 100, 93, 25, 115,
   96, 129, 79, 220, 34, 42, 144, 136, 70, 238, 184, 20, 222, 94, 11, 219,
   224, 50, 58, 10, 73, 6, 36, 92, 194, 211, 172, 98, 145, 149, 228, 121,
   231, 200, 55, 109, 141, 213, 78, 169, 108, 86, 244, 234, 101, 122, 174, 8,
   186, 120, 37, 46, 28, 166, 180, 198, 232, 221, 116, 31, 75, 189, 139, 138,
   112, 62, 181, 102, 72, 3, 246, 14, 97, 53, 87, 185, 134, 193, 29, 158,
   225, 248, 152, 17, 105, 217, 142, 148, 155, 30, 135, 233, 206, 85, 40, 223,
   140, 161, 137, 13, 191, 230, 66, 104, 65, 153, 45, 15, 176, 84, 187, 22]

/-- AES byte substitution. -/
def sbox (b : Nat) : Nat := sboxTable.getD (b % 256) 0

/-- The table agrees with the affine transform of the field inverse on
every byte. -/
theorem sboxTable_calc : ∀ b, b < 256 → sbox b = sboxCalc b := by decide

/-- Doubling in GF(256) (the xtime operation of the AES reference). -/
def xtime (b : Nat) : Nat := if b % 256 < 128 then b * 2 % 256 else xor8 (b * 2) 27

/-- Round constants of the AES key schedule. -/
def rconV (r : Nat) : Nat := [0, 1, 2, 4, 8, 16, 32, 64, 128, 27, 54].getD r 0

/-- Word rotation of the key schedule. -/
def rotWord (w : List Nat) : List Nat := [w.getD 1 0, w.getD 2 0, w.getD 3 0, w.getD 0 0]

/-- Byte substitution applied to a key-schedule word. -/
def subWord (w : List Nat) : List Nat := w.map sbox

/-- The 44 words of the expanded AES-128 key, built iteratively. -/
def allWords (key : List Nat) : List (List Nat) :=
  (List.range 40).foldl
    (fun ws i =>
      let j := i + 4
      let prev := ws.getD (j - 1) []
      let four := ws.getD (j - 4) []
      let w :=
        if j % 4 = 0 then
          List.zipWith xor8 four
            (List.zipWith xor8 (subWord (rotWord prev)) [rconV (j / 4), 0, 0, 0])
        else List.zipWith xor8 four prev
      ws ++ [w])
    ((List.range 4).map (fun j => (List.range 4).map (fun k => key.getD (4 * j + k) 0)))

/-- Round key r of the expanded key, as 16 bytes. -/
def roundKey (ws : List (List Nat)) (r : Nat) : List Nat :=
  ws.getD (4 * r) [] ++ ws.getD (4 * r + 1) [] ++ ws.getD (4 * r + 2) [] ++ ws.getD (4 * r + 3) []

/-- AddRoundKey on the 16-byte state (fixed-size array xor). -/
def addRK (s rk : List Nat) : List Nat :=
  (List.range 16).map (fun i => xor8 (s.getD i 0) (rk.getD i 0))

/-- SubBytes on the state. -/
def subBytes (s : List Nat) : List Nat := s.map sbox

/-- Source index of the ShiftRows permutation in column-major byte order. -/
def shiftRowsIdx (i : Nat) : Nat := i % 4 + 4 * ((i / 4 + i % 4) % 4)

/-- ShiftRows on the state. -/
def shiftRows (s : List Nat) : List Nat :=
  (List.range 16).map (fun i => s.getD (shiftRowsIdx i) 0)

/-- MixColumns on one column. -/
def mixColumn (a0 a1 a2 a3 : Nat) : List Nat :=
  [xor8 (xtime a0) (xor8 (xor8 (xtime a1) a1) (xor8 a2 a3)),
   xor8 a0 (xor8 (xtime a1) (xor8 (xor8 (xtime a2) a2) a3)),
   xor8 a0 (xor8 a1 (xor8 (xtime a2) (xor8 (xtime a3) a3))),
   xor8 (xor8 (xtime a0) a0) (xor8 a1 (xor8 a2 (xtime a3)))]

/-- MixColumns on the state. -/
def mixColumns (s : List Nat) : List Nat :=
  mixColumn (s.getD 0 0) (s.getD 1 0) (s.getD 2 0) (s.getD 3 0)
    ++ mixColumn (s.getD 4 0) (s.getD 5 0) (s.getD 6 0) (s.getD 7 0)
    ++ mixColumn (s.getD 8 0) (s.getD 9 0) (s.getD 10 0) (s.getD 11 0)
    ++ mixColumn (s.getD 12 0) (s.getD 13 0) (s.getD 14 0) (s.getD 15 0)

/-- AES-128 forward cipher on one 16-byte block. -/
def aesBlock (key block : List Nat) : List Nat :=
  let ws := allWords key
  let s0 := addRK block (roundKey ws 0)
  let s9 := (List.range 9).foldl
    (fun st r => addRK (mixColumns (shiftRows (subBytes st))) (roundKey ws (r + 1))) s0
  addRK (shiftRows (subBytes s9)) (roundKey ws 10)

example :
    aesBlock [0, 1, 2, 3, 4, 5, 6, 7, 8, 9, 10, 11, 12, 13, 14, 15]
        [0, 17, 34, 51, 68, 85, 102, 119, 136, 153, 170, 187, 204, 221, 238, 255] =
      [105, 196, 224, 216, 106, 123, 4, 48, 216, 205, 183, 128, 112, 180, 197, 90] := by
  decide

/-! ## GCM mode (the aes-gcm crate, Aes128Gcm with 96-bit nonces and full
16-byte tags) -/

/-- Big-endian value of a byte list. -/
def toN (bs : List Nat) : Nat := bs.foldl (fun acc b => acc * 256 + b % 256) 0

/-- Big-endian 4-byte encoding of the low 32 bits of a value. -/
def be32 (n : Nat) : List Nat := (List.range 4).map (fun i => n / 2 ^ (8 * (3 - i)) % 256)

/-- Big-endian 8-byte encoding of the low 64 bits of a value. -/
def be64 (n : Nat) : List Nat := (List.range 8).map (fun i => n / 2 ^ (8 * (7 - i)) % 256)

/-- Big-endian 16-byte encoding of the low 128 bits of a value. -/
def be128 (n : Nat) : List Nat := (List.range 16).map (fun i => n / 2 ^ (8 * (15 - i)) % 256)

/-- Product in GF(2 to the 128) with the GHASH bit convention: operands are
big-endian 128-bit values, bit zero of the field element is the most
significant bit of the first byte. -/
def gfMul (x y : Nat) : Nat :=
  ((List.range 128).foldl
    (fun (zv : Nat × Nat) i =>
      let z := if x.testBit (127 - i) then zv.1 ^^^ zv.2 else zv.1
      let v := if zv.2 % 2 = 1 then zv.2 / 2 ^^^ 225 * 2 ^ 120 else zv.2 / 2
      (z, v))
    (0, y % 2 ^ 128)).1

/-- Zero padding of a byte list to a multiple of the block size. -/
def pad16 (l : List Nat) : List Nat := l ++ List.replicate ((16 - l.length % 16) % 16) 0

/-- GHASH accumulation over the padded data, 16 bytes per step (the data
is always a multiple of 16 bytes; a shorter final fragment would be
read as its zero-padded block). -/
def ghashGo (h : Nat) : Nat → List Nat → Nat
  | y, [] => y
  | y, b0 :: b1 :: b2 :: b3 :: b4 :: b5 :: b6 :: b7 ::
       b8 :: b9 :: b10 :: b11 :: b12 :: b13 :: b14 :: b15 :: rest =>
    ghashGo h
      (gfMul ((y ^^^ toN [b0, b1, b2, b3, b4, b5, b6, b7, b8, b9, b10, b11, b12, b13, b14, b15])
          % 2 ^ 128) h)
      rest
  | y, l => gfMul ((y ^^^ toN (pad16 l)) % 2 ^ 128) h

/-- GHASH of associated data and ciphertext under hash subkey h: process
the zero-padded data followed by the bit-length block. -/
def ghash (h : Nat) (aad ct : List Nat) : Nat :=
  ghashGo h 0 (pad16 aad ++ pad16 ct ++ be64 (8 * aad.length) ++ be64 (8 * ct.length))

/-- Counter block j of the GCM keystream for a 12-byte nonce (the counter
of the first ciphertext block is 2). -/
def ctrBlock (key iv : List Nat) (j : Nat) : List Nat := aesBlock key (iv ++ be32 (j + 2))

/-- First n bytes of the GCM keystream. -/
def keystream (key iv : List Nat) (n : Nat) : List Nat :=
  (((List.range ((n + 15) / 16)).map (ctrBlock key iv)).flatten).take n

/-- CTR-mode transform: xor the data with the keystream. This single
function both encrypts plaintext and decrypts ciphertext. -/
def ctrXor (key iv data : List Nat) : List Nat :=
  List.zipWith xor8 data (keystream key iv data.length)

/-- The 16-byte GCM authentication tag over ciphertext and associated data. -/
def gcmTag (key iv ct aad : List Nat) : List Nat :=
  let h := toN (aesBlock key (List.replicate 16 0))
  let s := ghash h aad ct
  be128 (s ^^^ toN (aesBlock key (iv ++ be32 1)))

/-- GCM seal (the aead encrypt entry point): ciphertext with the tag
appended. -/
def gcmSeal (key iv pt aad : List Nat) : List Nat :=
  let ct := ctrXor key iv pt
  ct ++ gcmTag key iv ct aad

/-- GCM open (the aead decrypt entry point): split the trailing 16 bytes as
the tag, recompute it over the ciphertext and associated data, and reject
the whole message on mismatch. -/
def gcmOpen (key iv buf aad : List Nat) : Option (List Nat) :=
  if buf.length < 16 then none
  else
    let ct := buf.take (buf.length - 16)
    let tag := buf.drop (buf.length - 16)
    if gcmTag key iv ct aad = tag then some (ctrXor key iv ct) else none

/-! ## CipherGeneration (src/encryption/cipher_generation.rs)

The operating-system random source OsRng is modelled as an explicit stream
g of byte values, making every generator a pure function of the stream. -/

namespace CipherGeneration

/-- Translation of CipherGeneration::random_bytes: a vector of the given
length filled from the random source. -/
def random_bytes (length : Nat) (g : Nat → Nat) : List Nat :=
  (List.range length).map (fun i => g i % 256)

/-- Translation of CipherGeneration::random_iv: twelve random bytes. -/
def random_iv (g : Nat → Nat) : List Nat := random_bytes 12 g

/-- Translation of CipherGeneration::random_key: a fresh 16-byte AES-128
key, hex encoded. -/
def random_key (g : Nat → Nat) : List Nat := hexEncode (random_bytes 16 g)

end CipherGeneration

/-! ## MessageEncryption (src/encryption/message_encryptor.rs)

The struct fields (message, key, aad) are passed as the leading arguments
of each translated method.  GenericArray::from_slice aborts the process
when the slice length does not match, which the translation records as the
panicked outcome. -/

namespace MessageEncryption

/-- Translation of MessageEncryption::encrypt: decode the key from hex
(returned error on failure), build the cipher (panic if the decoded key is
not 16 bytes), serialize the UTF-8 message through RubyMarshal (returned
error on invalid UTF-8), seal with a fresh random nonce, split the
trailing 16 bytes as the tag, and join the base64 of ciphertext, nonce and
tag with the two-dash delimiter. -/
def encrypt (message key aad : List Nat) (g : Nat → Nat) : RustOutcome (List Nat) :=
  match hex_to_bytes key with
  | some kb =>
    if kb.length = 16 then
      let iv := CipherGeneration.random_iv g
      if validUtf8 message then
        let buf := gcmSeal kb iv (RubyMarshal.serialize message) aad
        let ct := buf.take (buf.length - 16)
        let tag := buf.drop (buf.length - 16)
        .ok (base64Encode ct ++ [45, 45] ++ base64Encode iv ++ [45, 45] ++ base64Encode tag)
      else .err
    else .panicked
  | none => .err

/-- Translation of MessageEncryption::decrypt: decode key from hex and
message, iv, tag from base64 (returned error if any decode fails), build
the cipher (panic if the key is not 16 bytes or the nonce not 12), open
the ciphertext with the tag appended (returned error on authentication
failure), then unwrap the envelope and require valid UTF-8 (returned
error on either failure). -/
def decrypt (message key aad iv tag : List Nat) : RustOutcome (List Nat) :=
  match hex_to_bytes key, base64Decode iv, base64Decode message, base64Decode tag with
  | some kb, some ivb, some ctb, some tagb =>
    if kb.length = 16 then
      if ivb.length = 12 then
        match gcmOpen kb ivb (ctb ++ tagb) aad with
        | some pt =>
          match RubyMarshal.deserialize pt with
          | some content => if validUtf8 content then .ok content else .err
          | none => .err
        | none => .err
      else .panicked
    else .panicked
  | _, _, _, _ => .err

/-- Translation of MessageEncryption::split_encrypted_contents: split on
the literal two-dash delimiter and succeed exactly when three fields
result. -/
def split_encrypted_contents (contents : List Nat) : RustOutcome (List (List Nat)) :=
  let parts := splitDashDash contents
  if parts.length = 3 then .ok parts else .err

end MessageEncryption

example :
    MessageEncryption.split_encrypted_contents
        (ascii "HPxd1UcM3cH+Rt0HaIOFzdHqIPWIc3yR--/EoLW7ichWLzLh3V--7L1L8uPH7LoQYLkEfIckgA==") =
      .ok [ascii "HPxd1UcM3cH+Rt0HaIOFzdHqIPWIc3yR", ascii "/EoLW7ichWLzLh3V",
        ascii "7L1L8uPH7LoQYLkEfIckgA=="] := by
  decide

/-! ## File-system state

All mutable state of the workflow lives in the file system, modelled as an
association list of file contents keyed by path plus the set of existing
directories. Writes prepend, reads take the first match, removal filters. -/

/-- File-system state: file contents by path and the existing directories.
Paths and contents are byte lists. -/
structure FS where
  files : List (List Nat × List Nat)
  dirs : List (List Nat)

namespace FS

/-- First association for a path in a file list. -/
def readAssoc : List (List Nat × List Nat) → List Nat → Option (List Nat)
  | [], _ => none
  | e :: rest, p => if e.1 = p then some e.2 else readAssoc rest p

/-- All associations for a path removed from a file list. -/
def removeAssoc : List (List Nat × List Nat) → List Nat → List (List Nat × List Nat)
  | [], _ => []
  | e :: rest, p => if e.1 = p then removeAssoc rest p else e :: removeAssoc rest p

/-- Contents at a path, if a file exists there. -/
def read (fs : FS) (p : List Nat) : Option (List Nat) := readAssoc fs.files p

/-- Create or overwrite the file at a path. -/
def write (fs : FS) (p v : List Nat) : FS :=
  { fs with files := (p, v) :: fs.files }

/-- Delete the file at a path. -/
def remove (fs : FS) (p : List Nat) : FS :=
  { fs with files := removeAssoc fs.files p }

/-- Atomic rename: move the contents at the source path onto the target
path, failing when the source does not exist. -/
def rename (fs : FS) (src dst : List Nat) : Option FS :=
  match fs.read src with
  | some v => some ((fs.remove src).write dst v)
  | none => none

/-- Whether a path exists, as a file or as a directory. -/
def pathExists (fs : FS) (p : List Nat) : Prop :=
  (fs.read p).isSome = true ∨ p ∈ fs.dirs

instance (fs : FS) (p : List Nat) : Decidable (fs.pathExists p) := by
  unfold pathExists; infer_instance

/-- Whether a path is an existing directory. -/
def isDir (fs : FS) (p : List Nat) : Bool := p ∈ fs.dirs

end FS

/-! ## Path helpers (std::path semantics used by file_encryptor.rs) -/

/-- Split a byte string at every occurrence of a separator byte. -/
def splitByte (sep : Nat) : List Nat → List (List Nat)
  | [] => [[]]
  | c :: rest =>
    if c = sep then [] :: splitByte sep rest
    else
      match splitByte sep rest with
      | [] => [[c]]
      | h :: t => (c :: h) :: t

/-- Normal components of a path: the separator-split pieces without empty
pieces and without the current-directory piece. -/
def pathComponents (p : List Nat) : List (List Nat) :=
  (splitByte 47 p).filter (fun c => !(c == []) && !(c == [46]))

/-- Rust Path::file_name: the final normal component, unless it is the
parent-directory component. -/
def fileName (p : List Nat) : Option (List Nat) :=
  match (pathComponents p).getLast? with
  | some c => if c = [46, 46] then none else some c
  | none => none

/-- Rust Path::parent: the path with its final component removed; none for
the root or the empty path. The result keeps everything before the last
separator (the leading separator for a top-level absolute path, the empty
relative path when no separator remains). -/
def parentDir (p : List Nat) : Option (List Nat) :=
  if p = [] ∨ p = [47] then none
  else
    match (List.range p.length).findSome?
        (fun i => if p.getD (p.length - 1 - i) 0 = 47 then some (p.length - 1 - i) else none) with
    | some i => if i = 0 then some [47] else some (p.take i)
    | none => some []

/-- Rust PathBuf::push of a relative name onto a base path. -/
def pathJoin (base name : List Nat) : List Nat :=
  if base = [] then name
  else if base.getLast? = some 47 then base ++ name
  else base ++ [47] ++ name

/-- Index just after the last dot of a byte string, if any dot occurs. -/
def lastDotIdx (p : List Nat) : Option Nat :=
  (List.range p.length).findSome?
    (fun i => if p.getD (p.length - 1 - i) 0 = 46 then some (p.length - 1 - i) else none)

/-- Rust extension plus set_extension of the empty string, specialised to
the single check the source performs: when the file name has the enc
extension, drop that extension, otherwise keep the name. -/
def stripEncExt (name : List Nat) : List Nat :=
  match lastDotIdx name with
  | some i => if 0 < i ∧ name.drop (i + 1) = [101, 110, 99] then name.take i else name
  | none => name

/-- Modelled from the documented behaviour of the external shellexpand
crate: tilde expansion rewrites a path that is exactly the tilde, or
starts with tilde-slash, to the home directory followed by the rest; any
other path (including tilde-user forms and paths without a leading tilde)
is returned unchanged, as is every path when no home directory is known. -/
def shellexpandTilde (home : Option (List Nat)) (p : List Nat) : List Nat :=
  match p with
  | 126 :: rest =>
    if rest = [] ∨ rest.headD 0 = 47 then
      match home with
      | some h => h ++ rest
      | none => p
    else p
  | _ => p

/-! ## FileEncryption (src/encryption/file_encryptor.rs)

The struct binds a file path and a key.  Process identity, the system
temp directory, the home directory, the external editor and the random
source are external collaborators, passed explicitly.  Fallible
file-system calls that depend on the outside world (write, read, rename,
remove) are guarded by an oracle of success flags so that every error
path of the workflow is represented. -/

/-- Outcome of launching the external editor on the staged temp file: the
spawn can abort the process, or the editor runs and leaves the temp file
with some content (none when it removed the file). -/
inductive EditorRun where
  | panics
  | runs (result : Option (List Nat))

/-- Success flags for the fallible file-system calls inside edit. -/
structure IOEnv where
  writeStageOk : Bool
  readTempOk : Bool
  writeCipherOk : Bool
  renameOk : Bool
  removeOk : Bool

/-- The all-success oracle. -/
def IOEnv.allOk : IOEnv := ⟨true, true, true, true, true⟩

/-- Storage of FileEncryption: the (tilde-expanded) file path and the key. -/
structure FileEncryption where
  file_path : List Nat
  key : List Nat

namespace FileEncryption

/-- Translation of FileEncryption::new: the given path is stored after
tilde expansion; the key verbatim. -/
def new (file_path key : List Nat) (home : Option (List Nat)) : FileEncryption :=
  ⟨shellexpandTilde home file_path, key⟩

/-- Translation of FileEncryption::encrypt: delegate to MessageEncryption
with the empty associated-data string. -/
def encrypt (fe : FileEncryption) (contents : List Nat) (g : Nat → Nat) :
    RustOutcome (List Nat) :=
  MessageEncryption.encrypt contents fe.key [] g

/-- Translation of FileEncryption::decrypt: read the ciphertext file as
text, split it into three fields, and delegate to MessageEncryption with
the empty associated-data string. -/
def decrypt (fe : FileEncryption) (fs : FS) : RustOutcome (List Nat) :=
  match fs.read fe.file_path with
  | none => .err
  | some raw =>
    if validUtf8 raw then
      match MessageEncryption.split_encrypted_contents raw with
      | .ok fields =>
        MessageEncryption.decrypt (fields.getD 0 []) fe.key [] (fields.getD 1 [])
          (fields.getD 2 [])
      | _ => .err
    else .err

/-- Translation of FileEncryption::temp_file_location: the system temp
directory joined with the process id, a dot, and the original file name
with a trailing enc extension stripped. -/
def temp_file_location (fe : FileEncryption) (pid tempDir : List Nat) :
    Option (List Nat) :=
  match fileName fe.file_path with
  | none => none
  | some orig => some (pathJoin tempDir (stripEncExt (pid ++ [46] ++ orig)))

/-- Workflow of FileEncryption::edit after the initial decrypt succeeded
and the temp path resolved: stage the plaintext to the temp path, run the
editor, re-read the temp file, and either re-encrypt the changed content
into the temp file and atomically rename it onto the permanent path, or
delete the temp file when nothing changed. -/
def editGo (fe : FileEncryption) (contents tempPath : List Nat) (editor : EditorRun)
    (env : IOEnv) (g : Nat → Nat) (fs : FS) : RustOutcome Unit × FS :=
  if env.writeStageOk then
    let fs1 := fs.write tempPath contents
    match editor with
    | .panics => (.panicked, fs1)
    | .runs result =>
      let fs2 := match result with
        | some b => fs1.write tempPath b
        | none => fs1.remove tempPath
      match fs2.read tempPath with
      | none => (.err, fs2)
      | some newBytes =>
        if env.readTempOk ∧ validUtf8 newBytes then
          if contents ≠ newBytes then
            match fe.encrypt newBytes g with
            | .ok encNew =>
              if env.writeCipherOk then
                let fs3 := fs2.write tempPath encNew
                if env.renameOk then
                  match fs3.rename tempPath fe.file_path with
                  | some fs4 => (.ok (), fs4)
                  | none => (.err, fs3)
                else (.err, fs3)
              else (.err, fs2)
            | .err => (.err, fs2)
            | .panicked => (.panicked, fs2)
          else
            if env.removeOk then (.ok (), fs2.remove tempPath) else (.err, fs2)
        else (.err, fs2)
  else (.err, fs)

/-- Translation of FileEncryption::edit: decrypt (aborting the process on
failure), resolve the temp path, and run the staged-edit workflow.
Returns the outcome together with the resulting file-system state. -/
def edit (fe : FileEncryption) (fs : FS) (pid tempDir : List Nat) (editor : EditorRun)
    (env : IOEnv) (g : Nat → Nat) : RustOutcome Unit × FS :=
  match fe.decrypt fs with
  | .ok contents =>
    match fe.temp_file_location pid tempDir with
    | none => (.err, fs)
    | some tempPath => editGo fe contents tempPath editor env g fs
  | _ => (.panicked, fs)

/-- Translation of FileEncryption::output_info_for_create: a directory
target receives the default key and credentials files inside it; a file
target names the ciphertext file itself with the key file next to it.
Returns the ciphertext file name with both resolved paths. -/
def output_info_for_create (path : List Nat) (fs : FS) :
    Option (List Nat × List Nat × List Nat) :=
  if fs.isDir path then
    some (ascii "credentials.yml.enc", pathJoin path (ascii "master.key"),
      pathJoin path (ascii "credentials.yml.enc"))
  else
    match parentDir path, fileName path with
    | some par, some fn => some (fn, pathJoin par (ascii "master.key"), path)
    | _, _ => none

/-- Translation of FileEncryption::create: resolve the key and ciphertext
paths; refuse to touch a target where either already exists; otherwise
write a fresh random key and the encryption of the placeholder plaintext.
The random source gk feeds the key, giv the nonce. -/
def create (path : List Nat) (fs : FS) (home : Option (List Nat)) (gk giv : Nat → Nat) :
    RustOutcome Unit × FS :=
  match output_info_for_create path fs with
  | none => (.err, fs)
  | some (filename, key_path, encrypted_file_path) =>
    if ¬ fs.pathExists key_path ∧ ¬ fs.pathExists encrypted_file_path then
      let key := CipherGeneration.random_key gk
      let fs1 := fs.write key_path key
      let fc := new filename key home
      match fc.encrypt (ascii "CHANGE ME") giv with
      | .ok encrypted_contents => (.ok (), fs1.write encrypted_file_path encrypted_contents)
      | .err => (.err, fs1)
      | .panicked => (.panicked, fs1)
    else (.err, fs)

end FileEncryption

/-! ## Supporting lemmas: file-system state -/

theorem FS.read_write_self (fs : FS) (p v : List Nat) : (fs.write p v).read p = some v := by
  simp [FS.read, FS.write, FS.readAssoc]

theorem FS.read_write_ne (fs : FS) (p v q : List Nat) (h : q ≠ p) :
    (fs.write p v).read q = fs.read q := by
  simp only [FS.read, FS.write, FS.readAssoc]
  rw [if_neg (by simpa using Ne.symm h)]

theorem FS.readAssoc_removeAssoc_self (files : List (List Nat × List Nat)) (p : List Nat) :
    FS.readAssoc (FS.removeAssoc files p) p = none := by
  induction files with
  | nil => rfl
  | cons e rest ih =>
    simp only [FS.removeAssoc]
    split_ifs with he
    · exact ih
    · simp only [FS.readAssoc, if_neg he, ih]

theorem FS.read_remove_self (fs : FS) (p : List Nat) : (fs.remove p).read p = none := by
  simp only [FS.read, FS.remove]
  exact FS.readAssoc_removeAssoc_self fs.files p

theorem FS.readAssoc_removeAssoc_ne (files : List (List Nat × List Nat)) (p q : List Nat)
    (h : q ≠ p) : FS.readAssoc (FS.removeAssoc files p) q = FS.readAssoc files q := by
  induction files with
  | nil => rfl
  | cons e rest ih =>
    simp only [FS.removeAssoc]
    split_ifs with he
    · rw [ih]
      simp only [FS.readAssoc]
      rw [if_neg (by rw [he]; exact Ne.symm h)]
    · simp only [FS.readAssoc, ih]

theorem FS.read_remove_ne (fs : FS) (p q : List Nat) (h : q ≠ p) :
    (fs.remove p).read q = fs.read q := by
  simp only [FS.read, FS.remove]
  exact FS.readAssoc_removeAssoc_ne fs.files p q h

theorem FS.dirs_write (fs : FS) (p v : List Nat) : (fs.write p v).dirs = fs.dirs := rfl

theorem FS.dirs_remove (fs : FS) (p : List Nat) : (fs.remove p).dirs = fs.dirs := rfl

/-! ## Supporting lemmas: hex -/

theorem hexDigitVal_hexDigitChar : ∀ n, n < 16 → hexDigitVal (hexDigitChar n) = some n := by
  decide

theorem hex_to_bytes_hexEncode : ∀ (bs : List Nat), AllBytes bs →
    hex_to_bytes (hexEncode bs) = some bs := by
  intro bs
  induction bs with
  | nil => intro _; rfl
  | cons b rest ih =>
    intro h
    have hb : b < 256 := h b (by simp)
    have hrest : AllBytes rest := fun c hc => h c (by simp [hc])
    simp only [hexEncode, hex_to_bytes]
    rw [hexDigitVal_hexDigitChar _ (by omega), hexDigitVal_hexDigitChar _ (by omega), ih hrest]
    have : 16 * (b / 16) + b % 16 = b := by omega
    simp [this]

theorem hexEncode_length (bs : List Nat) : (hexEncode bs).length = 2 * bs.length := by
  induction bs with
  | nil => rfl
  | cons b rest ih => simp [hexEncode, ih]; omega

/-! ## Supporting lemmas: UTF-8 validity -/

/-- Invariant carried by reachable automaton states: the stored upper
bound never exceeds the continuation-byte maximum. -/
def Utf8State.ok : Utf8State → Prop
  | .start => True
  | .need _ _ hi => hi ≤ 191

theorem utf8Step_lt {s s2 : Utf8State} {b : Nat} (h : utf8Step (some s) b = some s2)
    (hs : s.ok) : b < 256 ∧ s2.ok := by
  cases s with
  | start =>
    revert h
    simp only [utf8Step]
    split_ifs with h1 h2 h3 h4 h5 h6 h7 h8 <;> intro h <;> cases h <;>
      exact ⟨by omega, by first | exact trivial | (simp only [Utf8State.ok]; omega)⟩
  | need k lo hi =>
    simp only [Utf8State.ok] at hs
    revert h
    simp only [utf8Step]
    split_ifs with hc
    · cases k with
      | zero =>
        intro h; cases h
        exact ⟨by omega, trivial⟩
      | succ k2 =>
        intro h; cases h
        exact ⟨by omega, by simp only [Utf8State.ok]; omega⟩
    · intro h; cases h

theorem utf8_foldl_none : ∀ l : List Nat, l.foldl utf8Step none = none := by
  intro l
  induction l with
  | nil => rfl
  | cons b rest ih => simpa [utf8Step] using ih

theorem utf8_foldl_lt : ∀ (l : List Nat) (s : Utf8State), s.ok →
    l.foldl utf8Step (some s) = some .start → AllBytes l := by
  intro l
  induction l with
  | nil => intro s _ _ b hb; cases hb
  | cons b rest ih =>
    intro s hs h
    rw [List.foldl_cons] at h
    cases hstep : utf8Step (some s) b with
    | none => rw [hstep, utf8_foldl_none] at h; cases h
    | some s2 =>
      rw [hstep] at h
      have hlt := utf8Step_lt hstep hs
      intro c hc
      rcases List.mem_cons.mp hc with hcb | hcr
      · omega
      · exact ih s2 hlt.2 h c hcr

theorem validUtf8_bytes {l : List Nat} (h : validUtf8 l = true) : AllBytes l := by
  have h2 : l.foldl utf8Step (some .start) = some .start := by
    simpa [validUtf8] using h
  exact utf8_foldl_lt l .start trivial h2

/-! ## Supporting lemmas: marshal framing -/

theorem decodeLong_encodeLong (n : Nat) (r : List Nat) (h : n < 2 ^ 31) :
    decodeLong (encodeLong n ++ r) = some (n, r) := by
  unfold encodeLong
  split_ifs with h0 h1 h2 h3 h4 <;> simp only [List.cons_append, List.nil_append, decodeLong]
  · simp [h0]
  · have e1 : ¬ (n + 5 = 0) := by omega
    have e2 : 5 < n + 5 ∧ n + 5 < 128 := by omega
    simp [e1, e2]
  · have e1 : ¬ ((1 : Nat) = 0) := by omega
    have e2 : ¬ (5 < (1 : Nat) ∧ (1 : Nat) < 128) := by omega
    simp [e1, e2]
  · norm_num
    omega
  · norm_num
    omega
  · norm_num
    omega

theorem take_append_self (a b : List Nat) : (a ++ b).take a.length = a := by simp

theorem drop_append_self (a b : List Nat) : (a ++ b).drop a.length = b := by simp

theorem deserialize_serialize (msg : List Nat) (h : msg.length < 2 ^ 31) :
    RubyMarshal.deserialize (RubyMarshal.serialize msg) = some msg := by
  simp only [RubyMarshal.serialize, RubyMarshal.deserialize, List.cons_append, List.nil_append,
    List.append_assoc, decodeLong_encodeLong _ _ h]
  have hle : msg.length ≤ (msg ++ [6, 58, 6, 69, 84]).length := by simp
  rw [if_pos hle, drop_append_self, if_pos rfl, take_append_self]

theorem encodeLong_bytes (n : Nat) : AllBytes (encodeLong n) := by
  unfold encodeLong
  split_ifs with h0 h1 h2 h3 h4 <;> intro b hb <;> simp at hb <;> omega

theorem allBytes_append {a b : List Nat} (ha : AllBytes a) (hb : AllBytes b) :
    AllBytes (a ++ b) := by
  intro c hc
  rcases List.mem_append.mp hc with h | h
  · exact ha c h
  · exact hb c h

theorem serialize_bytes (msg : List Nat) (h : AllBytes msg) :
    AllBytes (RubyMarshal.serialize msg) := by
  unfold RubyMarshal.serialize
  refine allBytes_append (allBytes_append (allBytes_append ?_ (encodeLong_bytes _)) h) ?_
  · intro b hb; simp at hb; omega
  · intro b hb; simp at hb; omega

/-! ## Supporting lemmas: base64 -/

theorem b64Index_b64Char : ∀ n, n < 64 → b64Index (b64Char n) = some n := by decide

theorem b64Char_ne_45 (n : Nat) : b64Char n ≠ 45 := by
  unfold b64Char
  split_ifs <;> omega

theorem b64Char_ne_61 (n : Nat) : b64Char n ≠ 61 := by
  unfold b64Char
  split_ifs <;> omega

theorem base64Encode_ne_nil : ∀ (bs : List Nat), bs ≠ [] → base64Encode bs ≠ [] := by
  intro bs h
  match bs with
  | [b1] => simp [base64Encode]
  | [b1, b2] => simp [base64Encode]
  | b1 :: b2 :: b3 :: rest => simp [base64Encode]

theorem b64Char_lt (m : Nat) : b64Char m < 256 := by
  unfold b64Char; split_ifs <;> omega

theorem base64Encode_no_45_fuel : ∀ (n : Nat) (bs : List Nat), bs.length ≤ n →
    ∀ c ∈ base64Encode bs, c ≠ 45 := by
  intro n
  induction n with
  | zero =>
    intro bs hl c hc
    match bs with
    | [] => cases hc
  | succ n ih =>
    intro bs hl c hc
    match bs with
    | [] => cases hc
    | [b1] =>
      simp only [base64Encode, List.mem_cons, List.not_mem_nil, or_false] at hc
      rcases hc with h | h | h | h <;> subst h <;> first | exact b64Char_ne_45 _ | omega
    | [b1, b2] =>
      simp only [base64Encode, List.mem_cons, List.not_mem_nil, or_false] at hc
      rcases hc with h | h | h | h <;> subst h <;> first | exact b64Char_ne_45 _ | omega
    | b1 :: b2 :: b3 :: rest =>
      simp only [base64Encode, List.mem_cons] at hc
      rcases hc with h | h | h | h | h
      · subst h; exact b64Char_ne_45 _
      · subst h; exact b64Char_ne_45 _
      · subst h; exact b64Char_ne_45 _
      · subst h; exact b64Char_ne_45 _
      · exact ih rest (by simp at hl; omega) c h

theorem base64Encode_no_45 (bs : List Nat) : ∀ c ∈ base64Encode bs, c ≠ 45 :=
  base64Encode_no_45_fuel bs.length bs le_rfl

theorem base64Encode_bytes_fuel : ∀ (n : Nat) (bs : List Nat), bs.length ≤ n →
    AllBytes (base64Encode bs) := by
  intro n
  induction n with
  | zero =>
    intro bs hl c hc
    match bs with
    | [] => cases hc
  | succ n ih =>
    intro bs hl c hc
    match bs with
    | [] => cases hc
    | [b1] =>
      simp only [base64Encode, List.mem_cons, List.not_mem_nil, or_false] at hc
      rcases hc with h | h | h | h <;> subst h <;> first | exact b64Char_lt _ | omega
    | [b1, b2] =>
      simp only [base64Encode, List.mem_cons, List.not_mem_nil, or_false] at hc
      rcases hc with h | h | h | h <;> subst h <;> first | exact b64Char_lt _ | omega
    | b1 :: b2 :: b3 :: rest =>
      simp only [base64Encode, List.mem_cons] at hc
      rcases hc with h | h | h | h | h
      · subst h; exact b64Char_lt _
      · subst h; exact b64Char_lt _
      · subst h; exact b64Char_lt _
      · subst h; exact b64Char_lt _
      · exact ih rest (by simp at hl; omega) c h

theorem base64Encode_bytes (bs : List Nat) : AllBytes (base64Encode bs) :=
  base64Encode_bytes_fuel bs.length bs le_rfl

theorem base64_round_fuel : ∀ (n : Nat) (bs : List Nat), bs.length ≤ n → AllBytes bs →
    base64Decode (base64Encode bs) = some bs := by
  intro n
  induction n with
  | zero =>
    intro bs hl _
    match bs with
    | [] => rfl
  | succ n ih =>
    intro bs hl hB
    match bs with
    | [] => rfl
    | [b1] =>
      have h1 : b1 < 256 := hB b1 (by simp)
      simp only [base64Encode, base64Decode]
      rw [b64Index_b64Char _ (by omega), b64Index_b64Char _ (by omega)]
      have e0 : b1 % 4 * 16 % 16 = 0 := by omega
      have e1 : b1 / 4 * 4 + b1 % 4 * 16 / 16 = b1 := by omega
      have e1a : b1 / 4 * 4 + b1 % 4 = b1 := by omega
      simp [e0, e1, e1a]
    | [b1, b2] =>
      have h1 : b1 < 256 := hB b1 (by simp)
      have h2 : b2 < 256 := hB b2 (by simp)
      simp only [base64Encode, base64Decode]
      rw [b64Index_b64Char _ (by omega), b64Index_b64Char _ (by omega),
        b64Index_b64Char _ (by omega)]
      have e0 : b2 % 16 * 4 % 4 = 0 := by omega
      have e1 : b1 / 4 * 4 + (b1 % 4 * 16 + b2 / 16) / 16 = b1 := by omega
      have e2 : (b1 % 4 * 16 + b2 / 16) % 16 * 16 + b2 % 16 * 4 / 4 = b2 := by omega
      have e2a : (b1 % 4 * 16 + b2 / 16) % 16 * 16 + b2 % 16 = b2 := by omega
      simp [b64Char_ne_61, e0, e1, e2, e2a]
    | b1 :: b2 :: b3 :: rest =>
      have h1 : b1 < 256 := hB b1 (by simp)
      have h2 : b2 < 256 := hB b2 (by simp)
      have h3 : b3 < 256 := hB b3 (by simp)
      have e1 : b1 / 4 * 4 + (b1 % 4 * 16 + b2 / 16) / 16 = b1 := by omega
      have e2 : (b1 % 4 * 16 + b2 / 16) % 16 * 16 + (b2 % 16 * 4 + b3 / 64) / 4 = b2 := by omega
      have e3 : (b2 % 16 * 4 + b3 / 64) % 4 * 64 + b3 % 64 = b3 := by omega
      match rest with
      | [] =>
        simp only [base64Encode, base64Decode]
        rw [b64Index_b64Char _ (by omega), b64Index_b64Char _ (by omega),
          b64Index_b64Char _ (by omega), b64Index_b64Char _ (by omega)]
        simp [b64Char_ne_61, e1, e2, e3]
      | r1 :: r2 =>
        have hne : base64Encode (r1 :: r2) ≠ [] := base64Encode_ne_nil _ (by simp)
        have hrec : base64Decode (base64Encode (r1 :: r2)) = some (r1 :: r2) := by
          refine ih (r1 :: r2) (by simp at hl ⊢; omega) ?_
          intro c hc; exact hB c (by simp at hc ⊢; tauto)
        simp only [base64Encode, base64Decode]
        rw [b64Index_b64Char _ (by omega), b64Index_b64Char _ (by omega),
          b64Index_b64Char _ (by omega), b64Index_b64Char _ (by omega)]
        simp [hne, hrec, b64Char_ne_61, e1, e2, e3]

theorem base64_round (bs : List Nat) (hB : AllBytes bs) :
    base64Decode (base64Encode bs) = some bs :=
  base64_round_fuel bs.length bs le_rfl hB

/-! ## Supporting lemmas: the two-dash split -/

theorem splitDashDash_no_45 : ∀ (a : List Nat), (∀ c ∈ a, c ≠ 45) →
    splitDashDash a = [a] := by
  intro a
  induction a with
  | nil => intro _; rfl
  | cons c rest ih =>
    intro h
    match rest with
    | [] => rfl
    | c2 :: r2 =>
      have hc : ¬ (c = 45 ∧ c2 = 45) := by
        intro hcc; exact h c (by simp) hcc.1
      have hr : splitDashDash (c2 :: r2) = [c2 :: r2] :=
        ih (fun x hx => h x (by simp at hx ⊢; tauto))
      simp only [splitDashDash, if_neg hc, hr]

theorem splitDashDash_sep : ∀ (a rest : List Nat), (∀ c ∈ a, c ≠ 45) →
    splitDashDash (a ++ 45 :: 45 :: rest) = a :: splitDashDash rest := by
  intro a
  induction a with
  | nil =>
    intro rest _
    simp [splitDashDash]
  | cons c a2 ih =>
    intro rest h
    have hc45 : c ≠ 45 := h c (by simp)
    match a2 with
    | [] =>
      have hif : ¬ (c = 45 ∧ (45 : Nat) = 45) := by tauto
      simp only [List.nil_append, List.cons_append, splitDashDash, if_neg hif]
      simp [splitDashDash, hc45]
    | c2 :: a3 =>
      have hif : ¬ (c = 45 ∧ c2 = 45) := by tauto
      have hr := ih rest (fun x hx => h x (by simp at hx ⊢; tauto))
      simp only [List.cons_append] at hr ⊢
      simp only [splitDashDash, if_neg hif, hr]

theorem splitDashDash_wire (x y z : List Nat)
    (hx : ∀ c ∈ x, c ≠ 45) (hy : ∀ c ∈ y, c ≠ 45) (hz : ∀ c ∈ z, c ≠ 45) :
    splitDashDash (x ++ 45 :: 45 :: (y ++ 45 :: 45 :: z)) = [x, y, z] := by
  rw [splitDashDash_sep x _ hx, splitDashDash_sep y _ hy, splitDashDash_no_45 z hz]

/-! ## Supporting lemmas: AES and GCM structure -/

theorem xor8_lt (a b : Nat) : xor8 a b < 256 := by
  unfold xor8; omega

theorem aesBlock_length (key block : List Nat) : (aesBlock key block).length = 16 := by
  simp [aesBlock, addRK]

theorem aesBlock_bytes (key block : List Nat) : AllBytes (aesBlock key block) := by
  intro b hb
  simp only [aesBlock, addRK, List.mem_map] at hb
  obtain ⟨i, _, hi⟩ := hb
  rw [← hi]
  exact xor8_lt _ _

theorem be128_length (n : Nat) : (be128 n).length = 16 := by simp [be128]

theorem be128_bytes (n : Nat) : AllBytes (be128 n) := by
  intro b hb
  simp only [be128, List.mem_map] at hb
  obtain ⟨i, _, hi⟩ := hb
  omega

theorem flatten_length_const (L : List (List Nat)) (h : ∀ x ∈ L, x.length = 16) :
    L.flatten.length = 16 * L.length := by
  induction L with
  | nil => rfl
  | cons x rest ih =>
    simp only [List.flatten_cons, List.length_append, List.length_cons]
    rw [h x (by simp), ih (fun a ha => h a (by simp [ha]))]
    ring

theorem keystream_length (key iv : List Nat) (n : Nat) : (keystream key iv n).length = n := by
  unfold keystream
  rw [List.length_take]
  apply min_eq_left
  rw [flatten_length_const]
  · simp only [List.length_map, List.length_range]
    omega
  · intro x hx
    simp only [List.mem_map] at hx
    obtain ⟨j, _, hj⟩ := hx
    rw [← hj]
    exact aesBlock_length _ _

theorem keystream_bytes (key iv : List Nat) (n : Nat) : AllBytes (keystream key iv n) := by
  intro b hb
  unfold keystream at hb
  have hb2 := List.mem_of_mem_take hb
  rw [List.mem_flatten] at hb2
  obtain ⟨l, hl, hbl⟩ := hb2
  simp only [List.mem_map] at hl
  obtain ⟨j, _, hj⟩ := hl
  rw [← hj] at hbl
  exact aesBlock_bytes _ _ b hbl

theorem zipWith_xor8_bytes : ∀ (a b : List Nat), AllBytes (List.zipWith xor8 a b) := by
  intro a
  induction a with
  | nil => intro b c hc; cases hc
  | cons x a2 ih =>
    intro b c hc
    cases b with
    | nil => cases hc
    | cons y b2 =>
      simp only [List.zipWith_cons_cons, List.mem_cons] at hc
      rcases hc with h | h
      · rw [h]; exact xor8_lt _ _
      · exact ih b2 c h

theorem zip_xor8_cancel : ∀ (a b : List Nat), AllBytes a → AllBytes b → a.length ≤ b.length →
    List.zipWith xor8 (List.zipWith xor8 a b) b = a := by
  intro a
  induction a with
  | nil => intro b _ _ _; simp
  | cons x a2 ih =>
    intro b hA hB hl
    cases b with
    | nil => simp at hl
    | cons y b2 =>
      have hx : x < 256 := hA x (by simp)
      have hy : y < 256 := hB y (by simp)
      have hxy : x ^^^ y < 256 := by
        have := Nat.xor_lt_two_pow (show x < 2 ^ 8 by omega) (show y < 2 ^ 8 by omega)
        omega
      have hhead : xor8 (xor8 x y) y = x := by
        unfold xor8
        rw [Nat.mod_eq_of_lt hxy, Nat.xor_assoc, Nat.xor_self, Nat.xor_zero,
          Nat.mod_eq_of_lt hx]
      simp only [List.zipWith_cons_cons, hhead, List.cons.injEq, true_and]
      exact ih b2 (fun c hc => hA c (by simp [hc])) (fun c hc => hB c (by simp [hc]))
        (by simp at hl; omega)

theorem ctrXor_length (key iv d : List Nat) : (ctrXor key iv d).length = d.length := by
  simp [ctrXor, keystream_length]

theorem ctrXor_bytes (key iv d : List Nat) : AllBytes (ctrXor key iv d) :=
  zipWith_xor8_bytes _ _

theorem ctrXor_ctrXor (key iv d : List Nat) (h : AllBytes d) :
    ctrXor key iv (ctrXor key iv d) = d := by
  unfold ctrXor
  have hlen : (List.zipWith xor8 d (keystream key iv d.length)).length = d.length := by
    simp [keystream_length]
  rw [hlen]
  exact zip_xor8_cancel d (keystream key iv d.length) h (keystream_bytes _ _ _)
    (by rw [keystream_length])

theorem gcmTag_length (key iv ct aad : List Nat) : (gcmTag key iv ct aad).length = 16 := by
  simp [gcmTag, be128_length]

theorem gcmTag_bytes (key iv ct aad : List Nat) : AllBytes (gcmTag key iv ct aad) := by
  simp only [gcmTag]
  exact be128_bytes _

theorem gcmSeal_eq (key iv pt aad : List Nat) :
    gcmSeal key iv pt aad = ctrXor key iv pt ++ gcmTag key iv (ctrXor key iv pt) aad := by
  simp [gcmSeal]

theorem gcm_roundtrip (key iv pt aad : List Nat) (hp : AllBytes pt) :
    gcmOpen key iv (gcmSeal key iv pt aad) aad = some pt := by
  rw [gcmSeal_eq]
  simp only [gcmOpen]
  have hl : (ctrXor key iv pt ++ gcmTag key iv (ctrXor key iv pt) aad).length - 16 =
      (ctrXor key iv pt).length := by
    simp [gcmTag_length]
  rw [if_neg (by simp [gcmTag_length]), hl, take_append_self, drop_append_self, if_pos rfl,
    ctrXor_ctrXor _ _ _ hp]

/-! ## Supporting lemmas: random generation -/

theorem random_bytes_length (n : Nat) (g : Nat → Nat) :
    (CipherGeneration.random_bytes n g).length = n := by
  simp [CipherGeneration.random_bytes]

theorem random_bytes_bytes (n : Nat) (g : Nat → Nat) :
    AllBytes (CipherGeneration.random_bytes n g) := by
  intro b hb
  simp only [CipherGeneration.random_bytes, List.mem_map] at hb
  obtain ⟨i, _, hi⟩ := hb
  omega

theorem random_iv_length (g : Nat → Nat) : (CipherGeneration.random_iv g).length = 12 :=
  random_bytes_length 12 g

theorem random_iv_bytes (g : Nat → Nat) : AllBytes (CipherGeneration.random_iv g) :=
  random_bytes_bytes 12 g

/-! ## Supporting lemmas: the encrypt wire shape -/

theorem encrypt_eq (message key aad : List Nat) (g : Nat → Nat) (kb : List Nat)
    (hk : hex_to_bytes key = some kb) (hkl : kb.length = 16) (hm : validUtf8 message = true) :
    MessageEncryption.encrypt message key aad g =
      .ok (base64Encode (ctrXor kb (CipherGeneration.random_iv g) (RubyMarshal.serialize message))
        ++ 45 :: 45 ::
          (base64Encode (CipherGeneration.random_iv g)
            ++ 45 :: 45 ::
              base64Encode
                (gcmTag kb (CipherGeneration.random_iv g)
                  (ctrXor kb (CipherGeneration.random_iv g) (RubyMarshal.serialize message))
                  aad))) := by
  unfold MessageEncryption.encrypt
  rw [hk]
  simp only [if_pos hkl, if_pos hm, gcmSeal_eq]
  have hl : (ctrXor kb (CipherGeneration.random_iv g) (RubyMarshal.serialize message) ++
      gcmTag kb (CipherGeneration.random_iv g)
        (ctrXor kb (CipherGeneration.random_iv g) (RubyMarshal.serialize message)) aad).length
      - 16 =
      (ctrXor kb (CipherGeneration.random_iv g) (RubyMarshal.serialize message)).length := by
    simp [gcmTag_length]
  rw [hl, take_append_self, drop_append_self]
  simp

/-! ## Claim theorems -/

/-- C1: for every valid-UTF-8 plaintext, every AAD string and a key of 32
hex characters decoding to 16 bytes, encrypting with
MessageEncryption::encrypt, splitting the wire text with
split_encrypted_contents, and decrypting field 1 as the message with
fields 2 and 3 as iv and tag under the same key and AAD returns exactly
the original plaintext. The random source is arbitrary, and the plaintext
length is below the 2 to the 31 bound of the marshal length field. -/
theorem claim1_round_trip (message key aad : List Nat) (g : Nat → Nat) (kb : List Nat)
    (hk : hex_to_bytes key = some kb) (hkl : kb.length = 16)
    (hm : validUtf8 message = true) (hlen : message.length < 2 ^ 31) :
    ∃ wire fields,
      MessageEncryption.encrypt message key aad g = .ok wire ∧
      MessageEncryption.split_encrypted_contents wire = .ok fields ∧
      MessageEncryption.decrypt (fields.getD 0 []) key aad (fields.getD 1 [])
        (fields.getD 2 []) = .ok message := by
  have hserB : AllBytes (RubyMarshal.serialize message) :=
    serialize_bytes message (validUtf8_bytes hm)
  refine ⟨_,
    [base64Encode (ctrXor kb (CipherGeneration.random_iv g) (RubyMarshal.serialize message)),
     base64Encode (CipherGeneration.random_iv g),
     base64Encode
       (gcmTag kb (CipherGeneration.random_iv g)
         (ctrXor kb (CipherGeneration.random_iv g) (RubyMarshal.serialize message)) aad)],
    encrypt_eq message key aad g kb hk hkl hm, ?_, ?_⟩
  · unfold MessageEncryption.split_encrypted_contents
    rw [splitDashDash_wire _ _ _ (base64Encode_no_45 _) (base64Encode_no_45 _)
      (base64Encode_no_45 _)]
    rfl
  · simp only [List.getD_cons_zero, List.getD_cons_succ]
    unfold MessageEncryption.decrypt
    rw [hk, base64_round _ (random_iv_bytes g),
      base64_round _ (ctrXor_bytes _ _ _), base64_round _ (gcmTag_bytes _ _ _ _)]
    simp only [if_pos hkl, if_pos (random_iv_length g)]
    rw [← gcmSeal_eq, gcm_roundtrip _ _ _ _ hserB]
    simp [deserialize_serialize message hlen, hm]

/-- C1 witness: the round trip at a concrete message, key and random
source. -/
theorem claim1_round_trip_witness :
    ∃ wire fields,
      MessageEncryption.encrypt (ascii "hi")
          (ascii "00000000000000000000000000000000") [] (fun _ => 0) = .ok wire ∧
      MessageEncryption.split_encrypted_contents wire = .ok fields ∧
      MessageEncryption.decrypt (fields.getD 0 [])
          (ascii "00000000000000000000000000000000") [] (fields.getD 1 [])
          (fields.getD 2 []) = .ok (ascii "hi") :=
  claim1_round_trip (ascii "hi") (ascii "00000000000000000000000000000000") [] (fun _ => 0)
    [0, 0, 0, 0, 0, 0, 0, 0, 0, 0, 0, 0, 0, 0, 0, 0]
    (by decide) (by decide) (by decide) (by decide)

/-- C6: every successful MessageEncryption::encrypt output is
base64(ciphertext), two dashes, base64(12-byte nonce), two dashes,
base64(16-byte tag), where the tag is the trailing 16 bytes of the AEAD
output and the ciphertext the remainder; consequently
split_encrypted_contents on any encrypt output succeeds with those three
fields in order. -/
theorem claim6_wire_format (message key aad : List Nat) (g : Nat → Nat) (kb : List Nat)
    (hk : hex_to_bytes key = some kb) (hkl : kb.length = 16) (hm : validUtf8 message = true) :
    ∃ ct tag,
      let buf := gcmSeal kb (CipherGeneration.random_iv g) (RubyMarshal.serialize message) aad
      ct = buf.take (buf.length - 16) ∧
      tag = buf.drop (buf.length - 16) ∧
      tag.length = 16 ∧
      (CipherGeneration.random_iv g).length = 12 ∧
      MessageEncryption.encrypt message key aad g =
        .ok (base64Encode ct ++ 45 :: 45 ::
          (base64Encode (CipherGeneration.random_iv g) ++ 45 :: 45 :: base64Encode tag)) ∧
      MessageEncryption.split_encrypted_contents
          (base64Encode ct ++ 45 :: 45 ::
            (base64Encode (CipherGeneration.random_iv g) ++ 45 :: 45 :: base64Encode tag)) =
        .ok [base64Encode ct, base64Encode (CipherGeneration.random_iv g), base64Encode tag] := by
  refine ⟨ctrXor kb (CipherGeneration.random_iv g) (RubyMarshal.serialize message),
    gcmTag kb (CipherGeneration.random_iv g)
      (ctrXor kb (CipherGeneration.random_iv g) (RubyMarshal.serialize message)) aad,
    ?_, ?_, gcmTag_length _ _ _ _, random_iv_length g,
    encrypt_eq message key aad g kb hk hkl hm, ?_⟩
  · rw [gcmSeal_eq]
    have hl : (ctrXor kb (CipherGeneration.random_iv g) (RubyMarshal.serialize message) ++
        gcmTag kb (CipherGeneration.random_iv g)
          (ctrXor kb (CipherGeneration.random_iv g) (RubyMarshal.serialize message))
          aad).length - 16 =
        (ctrXor kb (CipherGeneration.random_iv g) (RubyMarshal.serialize message)).length := by
      simp [gcmTag_length]
    rw [hl, take_append_self]
  · rw [gcmSeal_eq]
    have hl : (ctrXor kb (CipherGeneration.random_iv g) (RubyMarshal.serialize message) ++
        gcmTag kb (CipherGeneration.random_iv g)
          (ctrXor kb (CipherGeneration.random_iv g) (RubyMarshal.serialize message))
          aad).length - 16 =
        (ctrXor kb (CipherGeneration.random_iv g) (RubyMarshal.serialize message)).length := by
      simp [gcmTag_length]
    rw [hl, drop_append_self]
  · unfold MessageEncryption.split_encrypted_contents
    rw [splitDashDash_wire _ _ _ (base64Encode_no_45 _) (base64Encode_no_45 _)
      (base64Encode_no_45 _)]
    rfl

/-- C6 witness: the wire shape at a concrete message, key and random
source. -/
theorem claim6_wire_format_witness :
    ∃ ct tag,
      let buf := gcmSeal [0, 0, 0, 0, 0, 0, 0, 0, 0, 0, 0, 0, 0, 0, 0, 0]
        (CipherGeneration.random_iv (fun _ => 0))
        (RubyMarshal.serialize (ascii "hi")) []
      ct = buf.take (buf.length - 16) ∧
      tag = buf.drop (buf.length - 16) ∧
      tag.length = 16 ∧
      (CipherGeneration.random_iv (fun _ => 0)).length = 12 ∧
      MessageEncryption.encrypt (ascii "hi") (ascii "00000000000000000000000000000000") []
          (fun _ => 0) =
        .ok (base64Encode ct ++ 45 :: 45 ::
          (base64Encode (CipherGeneration.random_iv (fun _ => 0)) ++ 45 :: 45 ::
            base64Encode tag)) ∧
      MessageEncryption.split_encrypted_contents
          (base64Encode ct ++ 45 :: 45 ::
            (base64Encode (CipherGeneration.random_iv (fun _ => 0)) ++ 45 :: 45 ::
              base64Encode tag)) =
        .ok [base64Encode ct, base64Encode (CipherGeneration.random_iv (fun _ => 0)),
          base64Encode tag] :=
  claim6_wire_format (ascii "hi") (ascii "00000000000000000000000000000000") [] (fun _ => 0)
    [0, 0, 0, 0, 0, 0, 0, 0, 0, 0, 0, 0, 0, 0, 0, 0] (by decide) (by decide) (by decide)

/-- C7: split_encrypted_contents is a pure function that succeeds exactly
when splitting on the two-dash delimiter yields three fields, returning
them in order; two fields fail, three succeed, four fail. -/
theorem claim7_split_exactly_three :
    (∀ s fields, MessageEncryption.split_encrypted_contents s = .ok fields ↔
      (splitDashDash s = fields ∧ fields.length = 3)) ∧
    MessageEncryption.split_encrypted_contents (ascii "a--b") = .err ∧
    MessageEncryption.split_encrypted_contents (ascii "a--b--c") =
      .ok [ascii "a", ascii "b", ascii "c"] ∧
    MessageEncryption.split_encrypted_contents (ascii "a--b--c--d") = .err := by
  refine ⟨?_, by decide, by decide, by decide⟩
  intro s fields
  constructor
  · intro h
    simp only [MessageEncryption.split_encrypted_contents] at h
    split_ifs at h with hc
    cases h
    exact ⟨rfl, hc⟩
  · rintro ⟨h1, h2⟩
    simp only [MessageEncryption.split_encrypted_contents]
    rw [h1, if_pos h2]

/-- C9: random_iv always returns exactly 12 bytes and random_key always
returns a 32-character hex string that decodes to exactly 16 bytes, for
every state of the random source. -/
theorem claim9_random_shapes (g : Nat → Nat) :
    (CipherGeneration.random_iv g).length = 12 ∧
    (CipherGeneration.random_key g).length = 32 ∧
    ∃ bs, hex_to_bytes (CipherGeneration.random_key g) = some bs ∧ bs.length = 16 :=
  ⟨random_iv_length g,
   by simp [CipherGeneration.random_key, hexEncode_length, random_bytes_length],
   ⟨CipherGeneration.random_bytes 16 g,
    hex_to_bytes_hexEncode _ (random_bytes_bytes _ _), random_bytes_length _ _⟩⟩

/-- C3 counterexample: the key 8872ebc11db3ea2e is valid hex but decodes
to 8 bytes; encrypt panics (GenericArray::from_slice aborts on the length
mismatch) instead of returning an error value as the claim states. -/
theorem claim3_counterexample :
    MessageEncryption.encrypt (ascii "hi") (ascii "8872ebc11db3ea2e") [] (fun _ => 0) =
      .panicked ∧
    MessageEncryption.encrypt (ascii "hi") (ascii "8872ebc11db3ea2e") [] (fun _ => 0) ≠
      .err := by
  decide

/-- C3 amended: a key that is not valid hex (bad digit or odd length)
makes both encrypt and decrypt return an error value; a key that is valid
hex but does not decode to 16 bytes makes encrypt panic, and makes
decrypt panic whenever the base64 fields decode. -/
theorem claim3_amended :
    (∀ message aad key g, hex_to_bytes key = none →
        MessageEncryption.encrypt message key aad g = .err) ∧
    (∀ message aad key iv tag, hex_to_bytes key = none →
        MessageEncryption.decrypt message key aad iv tag = .err) ∧
    (∀ message aad key g kb, hex_to_bytes key = some kb → kb.length ≠ 16 →
        MessageEncryption.encrypt message key aad g = .panicked) ∧
    (∀ message aad key iv tag kb ivb ctb tagb, hex_to_bytes key = some kb →
        kb.length ≠ 16 → base64Decode iv = some ivb → base64Decode message = some ctb →
        base64Decode tag = some tagb →
        MessageEncryption.decrypt message key aad iv tag = .panicked) := by
  refine ⟨?_, ?_, ?_, ?_⟩
  · intro message aad key g h
    unfold MessageEncryption.encrypt
    rw [h]
  · intro message aad key iv tag h
    unfold MessageEncryption.decrypt
    rw [h]
  · intro message aad key g kb hk hne
    unfold MessageEncryption.encrypt
    rw [hk]
    simp [hne]
  · intro message aad key iv tag kb ivb ctb tagb hk hne hiv hct htag
    unfold MessageEncryption.decrypt
    rw [hk, hiv, hct, htag]
    simp [hne]

/-- C3 amended witness: a non-hex key returns an error from encrypt, and
a valid-hex 8-byte key panics. -/
theorem claim3_amended_witness :
    MessageEncryption.encrypt (ascii "hi") (ascii "8872ebc11db3ea2") [] (fun _ => 0) = .err ∧
    MessageEncryption.encrypt (ascii "hi") (ascii "8872ebc11db3ea2e") [] (fun _ => 0) =
      .panicked :=
  ⟨claim3_amended.1 (ascii "hi") [] (ascii "8872ebc11db3ea2") (fun _ => 0) (by decide),
   claim3_amended.2.2.1 (ascii "hi") [] (ascii "8872ebc11db3ea2e") (fun _ => 0)
     [136, 114, 235, 193, 29, 179, 234, 46] (by decide) (by decide)⟩

/-- The three-line message of the tamper-detection test. -/
def bananaMessage : List Nat := ascii "banana: true\napple: false\norange: false"

/-- The key of the tamper-detection test. -/
def tamperKey : List Nat := ascii "8872ebc11db3ea2ed08cc629d199b164"

/-- The decoded bytes of the tamper-detection key. -/
def tamperKeyBytes : List Nat :=
  [136, 114, 235, 193, 29, 179, 234, 46, 208, 140, 198, 41, 209, 153, 177, 100]

/-- An all-zero random stream, fixing one concrete nonce. -/
def zeroStream : Nat → Nat := fun _ => 0

/-- C2: decrypt surfaces no output on authentication failure: whenever the
decoded fields fail the GCM tag check, decrypt returns an error; decrypt
with the invalid IV 123456789012345 returns an error for every message,
key, AAD and tag; and for the concrete banana message encrypted under key
8872ebc11db3ea2ed08cc629d199b164 with empty AAD, decrypting with the
substituted tag pksKcg/so9Pq3UMHjfnVsg== returns an error. -/
theorem claim2_tamper_reject :
    (∀ message key aad iv tag kb ivb ctb tagb,
        hex_to_bytes key = some kb → kb.length = 16 →
        base64Decode iv = some ivb → ivb.length = 12 →
        base64Decode message = some ctb → base64Decode tag = some tagb →
        gcmOpen kb ivb (ctb ++ tagb) aad = none →
        MessageEncryption.decrypt message key aad iv tag = .err) ∧
    (∀ message key aad tag,
        MessageEncryption.decrypt message key aad (ascii "123456789012345") tag = .err) ∧
    (∃ wire fields,
        MessageEncryption.encrypt bananaMessage tamperKey [] zeroStream = .ok wire ∧
        MessageEncryption.split_encrypted_contents wire = .ok fields ∧
        MessageEncryption.decrypt (fields.getD 0 []) tamperKey [] (fields.getD 1 [])
          (ascii "pksKcg/so9Pq3UMHjfnVsg==") = .err) := by
  have hgen : ∀ message key aad iv tag kb ivb ctb tagb,
      hex_to_bytes key = some kb → kb.length = 16 →
      base64Decode iv = some ivb → ivb.length = 12 →
      base64Decode message = some ctb → base64Decode tag = some tagb →
      gcmOpen kb ivb (ctb ++ tagb) aad = none →
      MessageEncryption.decrypt message key aad iv tag = .err := by
    intro message key aad iv tag kb ivb ctb tagb hk hkl hiv hivl hct htag hauth
    unfold MessageEncryption.decrypt
    rw [hk, hiv, hct, htag]
    simp [hkl, hivl, hauth]
  refine ⟨hgen, ?_, ?_⟩
  · intro message key aad tag
    unfold MessageEncryption.decrypt
    rw [show base64Decode (ascii "123456789012345") = none from by decide]
    rcases hex_to_bytes key with _ | kb <;> rcases base64Decode message with _ | ctb <;>
      rcases base64Decode tag with _ | tagb <;> rfl
  · refine ⟨_,
      [base64Encode (ctrXor tamperKeyBytes (CipherGeneration.random_iv zeroStream)
        (RubyMarshal.serialize bananaMessage)),
       base64Encode (CipherGeneration.random_iv zeroStream),
       base64Encode (gcmTag tamperKeyBytes (CipherGeneration.random_iv zeroStream)
         (ctrXor tamperKeyBytes (CipherGeneration.random_iv zeroStream)
           (RubyMarshal.serialize bananaMessage)) [])],
      encrypt_eq bananaMessage tamperKey [] zeroStream tamperKeyBytes (by decide) (by decide)
        (by decide), ?_, ?_⟩
    · unfold MessageEncryption.split_encrypted_contents
      rw [splitDashDash_wire _ _ _ (base64Encode_no_45 _) (base64Encode_no_45 _)
        (base64Encode_no_45 _)]
      rfl
    · simp only [List.getD_cons_zero, List.getD_cons_succ]
      exact hgen _ _ _ _ _ tamperKeyBytes (CipherGeneration.random_iv zeroStream)
        (ctrXor tamperKeyBytes (CipherGeneration.random_iv zeroStream)
          (RubyMarshal.serialize bananaMessage))
        [166, 75, 10, 114, 15, 236, 163, 211, 234, 221, 67, 7, 141, 249, 213, 178]
        (by decide) (by decide) (base64_round _ (random_iv_bytes _)) (random_iv_length _)
        (base64_round _ (ctrXor_bytes _ _ _)) (by decide) (by decide)

/-- C2 witness: a concrete authentication failure, namely an empty
ciphertext with an all-zero tag under the all-zero key and nonce, is
rejected with an error. -/
theorem claim2_tamper_reject_witness :
    MessageEncryption.decrypt (ascii "") (ascii "00000000000000000000000000000000") []
      (base64Encode (List.replicate 12 0)) (base64Encode (List.replicate 16 0)) = .err :=
  claim2_tamper_reject.1 (ascii "") (ascii "00000000000000000000000000000000") []
    (base64Encode (List.replicate 12 0)) (base64Encode (List.replicate 16 0))
    [0, 0, 0, 0, 0, 0, 0, 0, 0, 0, 0, 0, 0, 0, 0, 0] (List.replicate 12 0) []
    (List.replicate 16 0)
    (by decide) (by decide) (by decide) (by decide) (by decide) (by decide) (by decide)

/-! ## Supporting lemmas: edit workflow -/

theorem mdecrypt_ok_utf8 (message key aad iv tag c : List Nat)
    (h : MessageEncryption.decrypt message key aad iv tag = .ok c) : validUtf8 c = true := by
  unfold MessageEncryption.decrypt at h
  repeat' split at h
  all_goals try cases h
  all_goals assumption

theorem fdecrypt_ok_utf8 (fe : FileEncryption) (fs : FS) (c : List Nat)
    (h : fe.decrypt fs = .ok c) : validUtf8 c = true := by
  unfold FileEncryption.decrypt at h
  repeat' split at h
  all_goals try cases h
  all_goals exact mdecrypt_ok_utf8 _ _ _ _ _ _ h

/-- C5: when the temp file after the editor returns holds exactly the
staged plaintext, edit terminates successfully, the permanent ciphertext
bytes are unchanged, and the temp file is deleted. -/
theorem claim5_noop_edit (fe : FileEncryption) (fs : FS) (pid tempDir : List Nat)
    (g : Nat → Nat) (contents tempPath : List Nat)
    (hdec : fe.decrypt fs = .ok contents)
    (htmp : fe.temp_file_location pid tempDir = some tempPath)
    (hne : tempPath ≠ fe.file_path) :
    ∃ fs2, fe.edit fs pid tempDir (.runs (some contents)) IOEnv.allOk g = (.ok (), fs2) ∧
      fs2.read fe.file_path = fs.read fe.file_path ∧
      fs2.read tempPath = none := by
  have hutf : validUtf8 contents = true := fdecrypt_ok_utf8 fe fs contents hdec
  refine ⟨((fs.write tempPath contents).write tempPath contents).remove tempPath, ?_, ?_, ?_⟩
  · unfold FileEncryption.edit
    rw [hdec, htmp]
    unfold FileEncryption.editGo
    simp only [IOEnv.allOk]
    rw [FS.read_write_self]
    simp [hutf]
  · rw [FS.read_remove_ne _ _ _ (Ne.symm hne), FS.read_write_ne _ _ _ _ (Ne.symm hne),
      FS.read_write_ne _ _ _ _ (Ne.symm hne)]
  · exact FS.read_remove_self _ _

/-- The wire text of the placeholder plaintext under the tamper key and
the all-zero nonce, used as concrete file content. -/
def changeMeWire : List Nat :=
  base64Encode (ctrXor tamperKeyBytes (CipherGeneration.random_iv zeroStream)
    (RubyMarshal.serialize (ascii "CHANGE ME"))) ++ 45 :: 45 ::
    (base64Encode (CipherGeneration.random_iv zeroStream) ++ 45 :: 45 ::
      base64Encode (gcmTag tamperKeyBytes (CipherGeneration.random_iv zeroStream)
        (ctrXor tamperKeyBytes (CipherGeneration.random_iv zeroStream)
          (RubyMarshal.serialize (ascii "CHANGE ME"))) []))

/-- C5 witness: a concrete no-change edit on a real ciphertext file leaves
it untouched and deletes the temp file. -/
theorem claim5_noop_edit_witness :
    ∃ fs2,
      FileEncryption.edit ⟨ascii "/work/f.enc", tamperKey⟩
          ⟨[(ascii "/work/f.enc", changeMeWire)], []⟩
          (ascii "77") (ascii "/tmp") (.runs (some (ascii "CHANGE ME"))) IOEnv.allOk
          zeroStream = (.ok (), fs2) ∧
      fs2.read (ascii "/work/f.enc") =
        FS.read ⟨[(ascii "/work/f.enc", changeMeWire)], []⟩ (ascii "/work/f.enc") ∧
      fs2.read (ascii "/tmp/77.f") = none :=
  claim5_noop_edit ⟨ascii "/work/f.enc", tamperKey⟩
    ⟨[(ascii "/work/f.enc", changeMeWire)], []⟩ (ascii "77") (ascii "/tmp") zeroStream
    (ascii "CHANGE ME") (ascii "/tmp/77.f") (by decide) (by decide) (by decide)


theorem editGo_reads (fe : FileEncryption) (contents tempPath : List Nat)
    (editor : EditorRun) (env : IOEnv) (g : Nat → Nat) (fs : FS)
    (hfp : fe.file_path ≠ tempPath) :
    ∀ out fs2, FileEncryption.editGo fe contents tempPath editor env g fs = (out, fs2) →
      fs2.read fe.file_path = fs.read fe.file_path ∨
      (out = .ok () ∧ ∃ newC encNew, fe.encrypt newC g = .ok encNew ∧
        fs2.read fe.file_path = some encNew) := by
  intro out fs2 h
  simp only [FileEncryption.editGo] at h
  repeat' split at h
  all_goals cases h
  all_goals try (left; rfl)
  all_goals try (left; simp [FS.read_write_ne, FS.read_remove_ne, hfp])
  rename_i encNew henc hwc hrn xo hren
  unfold FS.rename at hren
  rw [FS.read_write_self] at hren
  cases hren
  right
  exact ⟨rfl, _, encNew, henc, FS.read_write_self _ _ _⟩

/-- C4: edit never writes the permanent ciphertext path except through
the single final atomic rename: when the initial decrypt fails the
workflow aborts as a panic with the whole file system untouched, and for
every outcome of the workflow the bytes at the permanent path are either
exactly what they were before the call, or (only on the successful
changed-edit path) the re-encrypted content installed by the rename. -/
theorem claim4_edit_only_rename (fe : FileEncryption) (fs : FS) (pid tempDir : List Nat)
    (editor : EditorRun) (env : IOEnv) (g : Nat → Nat)
    (hne : ∀ tp, fe.temp_file_location pid tempDir = some tp → tp ≠ fe.file_path) :
    ((∀ c, fe.decrypt fs ≠ .ok c) →
      fe.edit fs pid tempDir editor env g = (.panicked, fs)) ∧
    (∀ out fs2, fe.edit fs pid tempDir editor env g = (out, fs2) →
      fs2.read fe.file_path = fs.read fe.file_path ∨
      (out = .ok () ∧ ∃ newC encNew, fe.encrypt newC g = .ok encNew ∧
        fs2.read fe.file_path = some encNew)) := by
  constructor
  · intro hfail
    unfold FileEncryption.edit
    rcases hd : fe.decrypt fs with c | _ | _
    · exact absurd hd (hfail c)
    · rfl
    · rfl
  · intro out fs2 h
    unfold FileEncryption.edit at h
    revert h
    rcases hd : fe.decrypt fs with c | _ | _ <;> intro h
    · revert h
      rcases htp : fe.temp_file_location pid tempDir with _ | tp <;> intro h
      · cases h
        left; rfl
      · exact editGo_reads fe c tp editor env g fs (Ne.symm (hne tp htp)) out fs2 h
    · cases h
      left; rfl
    · cases h
      left; rfl

/-- C4 witness: on a file whose content is not even a three-field wire
text, decrypt fails and edit aborts as a panic with the file system
untouched. -/
theorem claim4_edit_only_rename_witness :
    FileEncryption.edit ⟨ascii "/work/f.enc", tamperKey⟩
        ⟨[(ascii "/work/f.enc", ascii "not a wire")], []⟩ (ascii "77") (ascii "/tmp")
        (.runs (some (ascii "x"))) IOEnv.allOk zeroStream =
      (.panicked, ⟨[(ascii "/work/f.enc", ascii "not a wire")], []⟩) := by
  have hne : ∀ tp,
      FileEncryption.temp_file_location ⟨ascii "/work/f.enc", tamperKey⟩ (ascii "77")
        (ascii "/tmp") = some tp → tp ≠ (⟨ascii "/work/f.enc", tamperKey⟩ :
          FileEncryption).file_path := by
    intro tp htp
    rw [show FileEncryption.temp_file_location ⟨ascii "/work/f.enc", tamperKey⟩ (ascii "77")
      (ascii "/tmp") = some (ascii "/tmp/77.f") from by decide] at htp
    cases htp
    decide
  refine (claim4_edit_only_rename ⟨ascii "/work/f.enc", tamperKey⟩
    ⟨[(ascii "/work/f.enc", ascii "not a wire")], []⟩ (ascii "77") (ascii "/tmp")
    (.runs (some (ascii "x"))) IOEnv.allOk zeroStream hne).1 ?_
  intro c hc
  rw [show FileEncryption.decrypt ⟨ascii "/work/f.enc", tamperKey⟩
    ⟨[(ascii "/work/f.enc", ascii "not a wire")], []⟩ = .err from by decide] at hc
  cases hc

/-! ## Supporting lemmas: create -/

theorem output_info_dirs_only (path : List Nat) (fs fs2 : FS) (h : fs.dirs = fs2.dirs) :
    FileEncryption.output_info_for_create path fs =
      FileEncryption.output_info_for_create path fs2 := by
  unfold FileEncryption.output_info_for_create FS.isDir
  rw [h]

/-- The wire text that create writes to the fresh ciphertext file: the
placeholder plaintext encrypted under the fresh random key and nonce. -/
def createdWire (gk giv : Nat → Nat) : List Nat :=
  base64Encode (ctrXor (CipherGeneration.random_bytes 16 gk) (CipherGeneration.random_iv giv)
      (RubyMarshal.serialize (ascii "CHANGE ME")))
    ++ 45 :: 45 ::
      (base64Encode (CipherGeneration.random_iv giv)
        ++ 45 :: 45 ::
          base64Encode (gcmTag (CipherGeneration.random_bytes 16 gk)
            (CipherGeneration.random_iv giv)
            (ctrXor (CipherGeneration.random_bytes 16 gk) (CipherGeneration.random_iv giv)
              (RubyMarshal.serialize (ascii "CHANGE ME"))) []))

/-- C8: create refuses a target whose resolved key file or ciphertext file
already exists, changing nothing; on a fresh resolvable target it
succeeds; and on a fresh target two successive create calls succeed then
fail, the second leaving the state of the first untouched. -/
theorem claim8_create_refuse_clobber :
    (∀ path fs home gk giv fn kp ep,
        FileEncryption.output_info_for_create path fs = some (fn, kp, ep) →
        (fs.pathExists kp ∨ fs.pathExists ep) →
        FileEncryption.create path fs home gk giv = (.err, fs)) ∧
    (∀ path fs home gk giv fn kp ep,
        FileEncryption.output_info_for_create path fs = some (fn, kp, ep) →
        ¬ fs.pathExists kp → ¬ fs.pathExists ep →
        ∃ fs2, FileEncryption.create path fs home gk giv = (.ok (), fs2) ∧
          (∀ home2 gk2 giv2,
            FileEncryption.create path fs2 home2 gk2 giv2 = (.err, fs2))) := by
  constructor
  · intro path fs home gk giv fn kp ep hout hex
    simp only [FileEncryption.create, hout]
    rw [if_neg (by tauto)]
  · intro path fs home gk giv fn kp ep hout h1 h2
    have henc : (FileEncryption.new fn (CipherGeneration.random_key gk) home).encrypt
        (ascii "CHANGE ME") giv = .ok (createdWire gk giv) := by
      unfold FileEncryption.encrypt createdWire
      exact encrypt_eq _ _ _ _ _
        (hex_to_bytes_hexEncode _ (random_bytes_bytes 16 gk))
        (random_bytes_length 16 gk) (by decide)
    refine ⟨(fs.write kp (CipherGeneration.random_key gk)).write ep (createdWire gk giv),
      ?_, ?_⟩
    · simp only [FileEncryption.create, hout]
      rw [if_pos ⟨h1, h2⟩, henc]
    · intro home2 gk2 giv2
      simp only [FileEncryption.create]
      rw [output_info_dirs_only path
        ((fs.write kp (CipherGeneration.random_key gk)).write ep (createdWire gk giv)) fs rfl,
        hout]
      have hkpex : FS.pathExists
          ((fs.write kp (CipherGeneration.random_key gk)).write ep (createdWire gk giv))
          kp := by
        unfold FS.pathExists
        left
        by_cases hkep : kp = ep
        · rw [hkep, FS.read_write_self]
          rfl
        · rw [FS.read_write_ne _ _ _ _ hkep, FS.read_write_self]
          rfl
      simp [hkpex]

/-- C8 witness: on a fresh directory target, create succeeds once and the
second call fails without touching the state. -/
theorem claim8_create_refuse_clobber_witness :
    ∃ fs2, FileEncryption.create (ascii "proj") ⟨[], [ascii "proj"]⟩ none zeroStream
        zeroStream = (.ok (), fs2) ∧
      (∀ home2 gk2 giv2, FileEncryption.create (ascii "proj") fs2 home2 gk2 giv2 =
        (.err, fs2)) :=
  claim8_create_refuse_clobber.2 (ascii "proj") ⟨[], [ascii "proj"]⟩ none zeroStream
    zeroStream (ascii "credentials.yml.enc") (ascii "proj/master.key")
    (ascii "proj/credentials.yml.enc") (by decide) (by decide) (by decide)

/-- C10 counterexample: the path tilde-user-slash stays verbatim in the
stored file path, although it begins with a tilde; the tilde is not
replaced by the home directory. -/
theorem claim10_counterexample :
    (FileEncryption.new (ascii "~user/secrets.yml.enc") (ascii "k")
        (some (ascii "/home/u"))).file_path = ascii "~user/secrets.yml.enc" ∧
    (FileEncryption.new (ascii "~user/secrets.yml.enc") (ascii "k")
        (some (ascii "/home/u"))).file_path ≠
      ascii "/home/u" ++ (ascii "~user/secrets.yml.enc").drop 1 := by
  decide

/-- C10 amended: FileEncryption::new expands the tilde only when the path
is exactly the tilde or starts with tilde-slash (given a known home
directory); every other path, including tilde-user forms and paths
without a leading tilde, is stored verbatim. -/
theorem claim10_amended :
    (∀ rest key home, (FileEncryption.new (126 :: 47 :: rest) key (some home)).file_path =
        home ++ 47 :: rest) ∧
    (∀ key home, (FileEncryption.new [126] key (some home)).file_path = home) ∧
    (∀ p key home, p.headD 0 ≠ 126 → (FileEncryption.new p key home).file_path = p) ∧
    (∀ c rest key home, c ≠ 47 →
        (FileEncryption.new (126 :: c :: rest) key home).file_path = 126 :: c :: rest) := by
  refine ⟨?_, ?_, ?_, ?_⟩
  · intro rest key home
    simp [FileEncryption.new, shellexpandTilde]
  · intro key home
    simp [FileEncryption.new, shellexpandTilde]
  · intro p key home h
    unfold FileEncryption.new shellexpandTilde
    split
    · simp at h
    · rfl
  · intro c rest key home h
    simp [FileEncryption.new, shellexpandTilde, h]

/-- C10 amended witness: a path without a leading tilde is stored
verbatim. -/
theorem claim10_amended_witness :
    (FileEncryption.new (ascii "plain.enc") (ascii "k")
      (some (ascii "/home/u"))).file_path = ascii "plain.enc" :=
  claim10_amended.2.2.1 (ascii "plain.enc") (ascii "k") (some (ascii "/home/u")) (by decide)
